import Mathlib

/-!
Verification of the HotStuff simulator protocol core.

Shallow embedding of the protocol core of `app.py`: the `Proposal` and `Vote`
value objects, the per-validator `NodeState` with its three operations
(`record_vote`, `try_form_qc`, `apply_qc_commit`), and the scenario driver's
equivocation round together with the attack-type dispatch.

Python mutable state is rendered as explicit state passing; the Python
`defaultdict(list)` keyed by proposal identity becomes an association list in
key-insertion order, and the Python `set` of evidence tuples becomes a
`Finset`.
-/

/-- Deterministic signature token, `sign` in the source.  The source embeds a
SHA-256 digest prefix in the token; the digest is abstracted here as the raw
`(signer, proposal-id)` pair, which preserves the only properties the
simulator relies on (determinism, provenance tagging): no code path ever
parses or verifies the token. -/
def sign (node_id proposal_id : String) : String :=
  "SIG(" ++ node_id ++ ":" ++ node_id ++ "|" ++ proposal_id ++ ")"

/-- `Proposal` from the source: a candidate block proposed in a view. -/
structure Proposal where
  block_id : String
  parent_id : String
  view : Nat
  proposer : String
deriving DecidableEq, Repr

/-- `Proposal.id` from the source: the string `f"{block_id}@v{view}"`. -/
def Proposal.id (p : Proposal) : String :=
  p.block_id ++ "@v" ++ toString p.view

/-- `Vote` from the source: a voter's signed endorsement of a proposal. -/
structure Vote where
  voter : String
  proposal : Proposal
  signature : String
deriving DecidableEq, Repr

/-- A quorum certificate as built by `try_form_qc`: the proposal paired with
the sorted tuple of voter identifiers. -/
abbrev QC := Proposal × List String

/-- An equivocation-evidence entry as added by `record_vote`:
`(accused voter, id of the earlier-seen proposal, id of the newly ingested
proposal)`. -/
abbrev Evid := String × String × String

/-- `NodeState` from the source.  `received_votes` is the `defaultdict(list)`
keyed by proposal identity, kept as an association list in key-insertion
order; `evidence` is the Python `set` of tuples. -/
structure NodeState where
  id : String
  received_votes : List (String × List Vote)
  evidence : Finset Evid
  committed : List String
  highest_qc : Option QC
deriving DecidableEq

/-- Fresh state built by `NodeState.__init__`. -/
def initNode (nid : String) : NodeState :=
  { id := nid, received_votes := [], evidence := ∅, committed := [],
    highest_qc := none }

/-- `self.received_votes[pid].append(vote)` on the association list: append to
the first entry with the given key, or append a fresh key at the end
(`defaultdict` creates the key on first access). -/
def insertVote : List (String × List Vote) → String → Vote →
    List (String × List Vote)
  | [], pid, v => [(pid, [v])]
  | (k, vs) :: rest, pid, v =>
    if k = pid then (k, vs ++ [v]) :: rest
    else (k, vs) :: insertVote rest pid v

/-- `self.received_votes.get(pid, [])`: lookup without key creation. -/
def lookupVotes : List (String × List Vote) → String → List Vote
  | [], _ => []
  | (k, vs) :: rest, pid => if k = pid then vs else lookupVotes rest pid

/-- The equivocation test of `record_vote`'s scan: same voter, same view, same
proposer, different block identifier. -/
def conflict (ov v : Vote) : Bool :=
  ov.voter == v.voter && ov.proposal.view == v.proposal.view &&
  ov.proposal.proposer == v.proposal.proposer &&
  ov.proposal.block_id != v.proposal.block_id

/-- The evidence entries produced by `record_vote`'s scan over the (updated)
vote map: every vote stored under a key other than the ingested vote's own
proposal identity is tested by `conflict`. -/
def conflictEntries (rv : List (String × List Vote)) (pid : String)
    (v : Vote) : List Evid :=
  rv.flatMap fun kvs =>
    if kvs.1 = pid then []
    else kvs.2.filterMap fun ov =>
      if conflict ov v then some (v.voter, ov.proposal.id, v.proposal.id)
      else none

/-- `NodeState.record_vote` from the source: store the vote under its
proposal identity, then scan every *other* proposal identity's votes for an
equivocation by the same voter and add the matching evidence tuples. -/
def NodeState.record_vote (s : NodeState) (vote : Vote) : NodeState :=
  let pid := vote.proposal.id
  let rv := insertVote s.received_votes pid vote
  { s with received_votes := rv,
           evidence := s.evidence ∪ (conflictEntries rv pid vote).toFinset }

/-- The `highest_qc` update inside `try_form_qc`: replace when unset or when
the new proposal's view strictly exceeds the stored QC's view. -/
def updateHQC (s : NodeState) (p : Proposal) (qc : QC) : NodeState :=
  match s.highest_qc with
  | none => { s with highest_qc := some qc }
  | some old => if old.1.view < p.view then { s with highest_qc := some qc }
                else s

/-- Python's ascending string order (code-point lexicographic), stated on
the character list so that concrete instances evaluate: this is the order
`sorted` uses on voter identifiers. -/
def strLe (a b : String) : Bool :=
  decide (a.data < b.data) || decide (a.data = b.data)

/-- `NodeState.try_form_qc` from the source: if at least `QUORUM` votes are
recorded for the proposal's identity, build a QC from the first `QUORUM`
votes' voters sorted ascending (`sorted`, i.e. code-point order), update
`highest_qc`, and return the QC; otherwise return `none` and leave the
state unchanged. -/
def NodeState.try_form_qc (s : NodeState) (proposal : Proposal)
    (QUORUM : Nat) : Option QC × NodeState :=
  let votes := lookupVotes s.received_votes proposal.id
  if QUORUM ≤ votes.length then
    let qc : QC :=
      (proposal,
       List.insertionSort (fun a b => strLe a b = true)
         ((votes.take QUORUM).map Vote.voter))
    (some qc, updateHQC s proposal qc)
  else (none, s)

/-- `NodeState.apply_qc_commit` from the source: append the QC's block
identifier to the committed list unless it is already present. -/
def NodeState.apply_qc_commit (s : NodeState) (qc : QC) : NodeState :=
  if qc.1.block_id ∈ s.committed then s
  else { s with committed := s.committed ++ [qc.1.block_id] }

/-- One step of the public interface of a node, for stating properties that
hold across every sequence of operations. -/
inductive Op where
  | rv : Vote → Op
  | tfq : Proposal → Nat → Op
  | aqc : QC → Op

/-- Apply one operation to a node's state (the returned QC of `try_form_qc`
is discarded; only the state effect matters here). -/
def stepOp (s : NodeState) : Op → NodeState
  | .rv v => s.record_vote v
  | .tfq p q => (s.try_form_qc p q).2
  | .aqc qc => s.apply_qc_commit qc

/-! ## The scenario driver (Run Simulation handler)

The equivocation branch of the driver, lines 194–295 of `app.py`, and the
attack-type dispatch around it.  Vote broadcast `for nd in nodes.values():
nd.record_vote(vote)` becomes a `map` over the node list; the per-node
mutation loops that also collect QCs become folds that thread the node list
and the collected QC list. -/

/-- Build one vote per target validator for a proposal, as the driver's
voting loops do. -/
def votesFor (targets : List String) (p : Proposal) : List Vote :=
  targets.map fun t => Vote.mk t p (sign t p.id)

/-- Deliver one vote to every node (`for nd in nodes.values():
nd.record_vote(vote)`). -/
def deliverToAll (ns : List NodeState) (v : Vote) : List NodeState :=
  ns.map fun nd => nd.record_vote v

/-- Deliver a list of votes in order, each broadcast to every node. -/
def deliverAll (ns : List NodeState) (vs : List Vote) : List NodeState :=
  vs.foldl deliverToAll ns

/-- The driver's first QC poll: each node tries to form a QC for `propA`
then for `propB`; formed QCs are appended in that order. -/
def pollQCs2 (ns : List NodeState) (propA propB : Proposal) (Q : Nat) :
    List NodeState × List QC :=
  ns.foldl
    (fun acc nd =>
      let rA := nd.try_form_qc propA Q
      let rB := rA.2.try_form_qc propB Q
      (acc.1 ++ [rB.2], acc.2 ++ (rA.1.toList ++ rB.1.toList)))
    ([], [])

/-- The driver's second QC poll: each node tries to form a QC for the safe
proposal. -/
def pollQCs1 (ns : List NodeState) (p : Proposal) (Q : Nat) :
    List NodeState × List QC :=
  ns.foldl
    (fun acc nd =>
      let r := nd.try_form_qc p Q
      (acc.1 ++ [r.2], acc.2 ++ r.1.toList))
    ([], [])

/-- Aggregate equivocation evidence across all nodes, as the driver's
`for nd in nodes.values(): for e in nd.evidence: evidence.add(e)`. -/
def aggregateEvidence (ns : List NodeState) : Finset Evid :=
  ns.foldl (fun acc nd => acc ∪ nd.evidence) ∅

/-- Result of the equivocation round as the driver reports it. -/
structure EquivResult where
  nodes : List NodeState
  qcs : List QC
  evidence : Finset Evid
  qcs_z : List QC
deriving DecidableEq

/-- The equivocation scenario of the driver (lines 194–295): leader splits
the validator list in half, proposes `X` to the first half and `Y` to the
second, every vote is broadcast to all nodes, QC formation is polled for
both proposals, evidence is aggregated, the view changes to the rotated
leader, which proposes `Z`; all validators vote, QC formation is polled for
`Z`, and on success every node commits the first formed QC. -/
def runEquivocation (nodeIds : List String) (currentLeader : String)
    (Q : Nat) : EquivResult :=
  let view := 1
  let propA := Proposal.mk "X" "GENESIS" view currentLeader
  let propB := Proposal.mk "Y" "GENESIS" view currentLeader
  let half := nodeIds.length / 2
  let targetsA := nodeIds.take half
  let targetsB := nodeIds.drop half
  let nodes0 := nodeIds.map initNode
  let nodes1 := deliverAll nodes0 (votesFor targetsA propA)
  let nodes2 := deliverAll nodes1 (votesFor targetsB propB)
  let polled := pollQCs2 nodes2 propA propB Q
  let ev := aggregateEvidence polled.1
  let view2 := view + 1
  let newLeader := (nodeIds.drop (1 % nodeIds.length)).headD ""
  let safeProp := Proposal.mk "Z" "GENESIS" view2 newLeader
  let nodes3 := deliverAll polled.1 (votesFor nodeIds safeProp)
  let polledZ := pollQCs1 nodes3 safeProp Q
  let nodes4 :=
    match polledZ.2 with
    | [] => polledZ.1
    | qc :: _ => polledZ.1.map fun nd => nd.apply_qc_commit qc
  ⟨nodes4, polled.2, ev, polledZ.2⟩

/-- The attack-type selector of the sidebar. -/
inductive AttackType where
  | equivocation
  | withholdQC
  | dropMessages
deriving DecidableEq

/-- Outcome of one run: either the equivocation round ran, or the branch
only logged a placeholder message acknowledging the scenario is not
implemented. -/
inductive SimOutcome where
  | ran : EquivResult → SimOutcome
  | notImplemented : String → SimOutcome
deriving DecidableEq

/-- The `Run Simulation` dispatch (lines 178–301): reset all node states,
then run the branch selected by the attack type.  The `Withhold QC` and
`Drop messages` branches only log a message and never touch the freshly
reset nodes. -/
def runSimulation (attack : AttackType) (nodeIds : List String)
    (currentLeader : String) (Q : Nat) : SimOutcome × List NodeState :=
  let ns := nodeIds.map initNode
  match attack with
  | .equivocation =>
    let r := runEquivocation nodeIds currentLeader Q
    (.ran r, r.nodes)
  | .withholdQC =>
    (.notImplemented
      "Withhold QC scenario not fully implemented in UI version yet. Please try Equivocation demo.",
     ns)
  | .dropMessages =>
    (.notImplemented
      "Other attack types are placeholders. Equivocation demo is the interactive part.",
     ns)

/-- The seven default validator identifiers for `N = 7`. -/
def NODE_IDS7 : List String := ["A", "B", "C", "D", "E", "F", "G"]

/-- The state of a node after ingesting a list of votes, starting fresh. -/
def nodeAfter (l : List Vote) (nid : String) : NodeState :=
  List.foldl NodeState.record_vote (initNode nid) l

/-- The state of one node after the driver's split-vote delivery: the two
target groups' votes for the two conflicting proposals, in driver order,
each ingested by the node. -/
def splitScenarioState (targetsA targetsB : List String) (pA pB : Proposal)
    (nid : String) : NodeState :=
  List.foldl NodeState.record_vote (initNode nid)
    (votesFor targetsA pA ++ votesFor targetsB pB)

/-- Admissible evolution of `highest_qc`: once set, it is either left alone
or replaced by a QC whose proposal's view is strictly greater. -/
def hqcAdvance (o n : Option QC) : Prop :=
  match o with
  | none => True
  | some qc0 => n = some qc0 ∨ ∃ qc1, n = some qc1 ∧ qc0.1.view < qc1.1.view

/-- Concrete state used to witness the `highest_qc` theorems: `highest_qc`
already holds a QC for a view-2 proposal. -/
def hqcWitnessState : NodeState :=
  { initNode "A" with
    highest_qc := some (Proposal.mk "X" "GENESIS" 2 "L", ["A"]) }

/-! ## Basic lemmas about the three node operations -/

theorem strLe_iff (a b : String) : strLe a b = true ↔ a ≤ b := by
  unfold strLe
  rw [Bool.or_eq_true, decide_eq_true_iff, decide_eq_true_iff,
    String.le_iff_toList_le, le_iff_lt_or_eq]
  simp [String.toList]

theorem lookup_insertVote (rv : List (String × List Vote)) (k pid : String)
    (v : Vote) :
    lookupVotes (insertVote rv k v) pid =
      lookupVotes rv pid ++ (if k = pid then [v] else []) := by
  induction rv with
  | nil =>
    by_cases h : k = pid <;> simp [insertVote, lookupVotes, h]
  | cons kvs rest ih =>
    obtain ⟨k', vs⟩ := kvs
    by_cases hk : k' = k
    · subst hk
      by_cases hp : k' = pid <;> simp [insertVote, lookupVotes, hp]
    · by_cases hp : k' = pid
      · subst hp
        have hkp : ¬ k = k' := fun h => hk h.symm
        simp [insertVote, lookupVotes, hk, hkp]
      · simp [insertVote, lookupVotes, hk, hp, ih]

theorem record_vote_received (s : NodeState) (v : Vote) :
    (s.record_vote v).received_votes =
      insertVote s.received_votes v.proposal.id v := rfl

theorem record_vote_evidence (s : NodeState) (v : Vote) :
    (s.record_vote v).evidence =
      s.evidence ∪ (conflictEntries
        (insertVote s.received_votes v.proposal.id v)
        v.proposal.id v).toFinset := rfl

theorem record_vote_committed (s : NodeState) (v : Vote) :
    (s.record_vote v).committed = s.committed := rfl

theorem record_vote_highest_qc (s : NodeState) (v : Vote) :
    (s.record_vote v).highest_qc = s.highest_qc := rfl

theorem record_vote_id (s : NodeState) (v : Vote) :
    (s.record_vote v).id = s.id := rfl

theorem evidence_subset_record_vote (s : NodeState) (v : Vote) :
    s.evidence ⊆ (s.record_vote v).evidence := by
  rw [record_vote_evidence]
  exact Finset.subset_union_left

theorem lookup_record_vote (s : NodeState) (v : Vote) (pid : String) :
    lookupVotes (s.record_vote v).received_votes pid =
      lookupVotes s.received_votes pid ++
        (if v.proposal.id = pid then [v] else []) := by
  rw [record_vote_received, lookup_insertVote]

theorem updateHQC_received (s : NodeState) (p : Proposal) (qc : QC) :
    (updateHQC s p qc).received_votes = s.received_votes := by
  unfold updateHQC
  cases s.highest_qc with
  | none => rfl
  | some old => by_cases h : old.1.view < p.view <;> simp [h]

theorem updateHQC_evidence (s : NodeState) (p : Proposal) (qc : QC) :
    (updateHQC s p qc).evidence = s.evidence := by
  unfold updateHQC
  cases s.highest_qc with
  | none => rfl
  | some old => by_cases h : old.1.view < p.view <;> simp [h]

theorem updateHQC_committed (s : NodeState) (p : Proposal) (qc : QC) :
    (updateHQC s p qc).committed = s.committed := by
  unfold updateHQC
  cases s.highest_qc with
  | none => rfl
  | some old => by_cases h : old.1.view < p.view <;> simp [h]

theorem updateHQC_id (s : NodeState) (p : Proposal) (qc : QC) :
    (updateHQC s p qc).id = s.id := by
  unfold updateHQC
  cases s.highest_qc with
  | none => rfl
  | some old => by_cases h : old.1.view < p.view <;> simp [h]

theorem try_form_qc_received (s : NodeState) (p : Proposal) (q : Nat) :
    (s.try_form_qc p q).2.received_votes = s.received_votes := by
  unfold NodeState.try_form_qc
  by_cases h : q ≤ (lookupVotes s.received_votes p.id).length <;>
    simp [h, updateHQC_received]

theorem try_form_qc_evidence (s : NodeState) (p : Proposal) (q : Nat) :
    (s.try_form_qc p q).2.evidence = s.evidence := by
  unfold NodeState.try_form_qc
  by_cases h : q ≤ (lookupVotes s.received_votes p.id).length <;>
    simp [h, updateHQC_evidence]

theorem try_form_qc_committed (s : NodeState) (p : Proposal) (q : Nat) :
    (s.try_form_qc p q).2.committed = s.committed := by
  unfold NodeState.try_form_qc
  by_cases h : q ≤ (lookupVotes s.received_votes p.id).length <;>
    simp [h, updateHQC_committed]

theorem try_form_qc_id (s : NodeState) (p : Proposal) (q : Nat) :
    (s.try_form_qc p q).2.id = s.id := by
  unfold NodeState.try_form_qc
  by_cases h : q ≤ (lookupVotes s.received_votes p.id).length <;>
    simp [h, updateHQC_id]

theorem apply_qc_commit_received (s : NodeState) (qc : QC) :
    (s.apply_qc_commit qc).received_votes = s.received_votes := by
  unfold NodeState.apply_qc_commit
  by_cases h : qc.1.block_id ∈ s.committed <;> simp [h]

theorem apply_qc_commit_evidence (s : NodeState) (qc : QC) :
    (s.apply_qc_commit qc).evidence = s.evidence := by
  unfold NodeState.apply_qc_commit
  by_cases h : qc.1.block_id ∈ s.committed <;> simp [h]

theorem apply_qc_commit_highest_qc (s : NodeState) (qc : QC) :
    (s.apply_qc_commit qc).highest_qc = s.highest_qc := by
  unfold NodeState.apply_qc_commit
  by_cases h : qc.1.block_id ∈ s.committed <;> simp [h]

theorem apply_qc_commit_id (s : NodeState) (qc : QC) :
    (s.apply_qc_commit qc).id = s.id := by
  unfold NodeState.apply_qc_commit
  by_cases h : qc.1.block_id ∈ s.committed <;> simp [h]

theorem apply_qc_commit_committed_ext (s : NodeState) (qc : QC) :
    ∃ t, s.committed ++ t = (s.apply_qc_commit qc).committed := by
  unfold NodeState.apply_qc_commit
  by_cases h : qc.1.block_id ∈ s.committed
  · exact ⟨[], by simp [h]⟩
  · exact ⟨[qc.1.block_id], by simp [h]⟩

theorem id_eq_of_view_eq {p q : Proposal} (hv : p.view = q.view)
    (h : p.id = q.id) : p.block_id = q.block_id := by
  unfold Proposal.id at h
  rw [hv] at h
  have hd := congrArg String.data h
  simp only [String.data_append, List.append_assoc] at hd
  exact String.ext (List.append_cancel_right hd)

theorem id_ne_of_block_ne {p q : Proposal} (hv : p.view = q.view)
    (hb : p.block_id ≠ q.block_id) : p.id ≠ q.id :=
  fun h => hb (id_eq_of_view_eq hv h)

theorem lookup_foldl_record (l : List Vote) (s : NodeState) (pid : String) :
    lookupVotes (List.foldl NodeState.record_vote s l).received_votes pid =
      lookupVotes s.received_votes pid ++
        l.filter (fun u => u.proposal.id == pid) := by
  induction l generalizing s with
  | nil => simp
  | cons v l ih =>
    rw [List.foldl_cons, ih, lookup_record_vote]
    by_cases h : v.proposal.id = pid <;>
      simp [List.filter_cons, h]

theorem apply_qc_commit_nodup (s : NodeState) (qc : QC)
    (h : s.committed.Nodup) : (s.apply_qc_commit qc).committed.Nodup := by
  unfold NodeState.apply_qc_commit
  by_cases hm : qc.1.block_id ∈ s.committed
  · simpa [hm] using h
  · simp only [hm, if_false]
    refine List.Nodup.append h (List.nodup_singleton _) ?_
    intro a ha hb
    rw [List.mem_singleton] at hb
    exact hm (hb ▸ ha)

/-! ## Growth and monotonicity across operation sequences -/

theorem stepOp_growth (s : NodeState) (op : Op) :
    (∀ pid, ∃ t, lookupVotes s.received_votes pid ++ t =
        lookupVotes (stepOp s op).received_votes pid) ∧
    s.evidence ⊆ (stepOp s op).evidence ∧
    (∃ t, s.committed ++ t = (stepOp s op).committed) := by
  cases op with
  | rv v =>
    refine ⟨fun pid => ⟨if v.proposal.id = pid then [v] else [], ?_⟩,
      evidence_subset_record_vote s v, ⟨[], by simp [stepOp,
        record_vote_committed]⟩⟩
    exact (lookup_record_vote s v pid).symm
  | tfq p q =>
    exact ⟨fun pid => ⟨[], by simp [stepOp, try_form_qc_received]⟩,
      by simp [stepOp, try_form_qc_evidence],
      ⟨[], by simp [stepOp, try_form_qc_committed]⟩⟩
  | aqc qc =>
    exact ⟨fun pid => ⟨[], by simp [stepOp, apply_qc_commit_received]⟩,
      by simp [stepOp, apply_qc_commit_evidence],
      apply_qc_commit_committed_ext s qc⟩

theorem foldOps_growth (ops : List Op) (s : NodeState) :
    (∀ pid, ∃ t, lookupVotes s.received_votes pid ++ t =
        lookupVotes (List.foldl stepOp s ops).received_votes pid) ∧
    s.evidence ⊆ (List.foldl stepOp s ops).evidence ∧
    (∃ t, s.committed ++ t = (List.foldl stepOp s ops).committed) := by
  induction ops generalizing s with
  | nil =>
    exact ⟨fun pid => ⟨[], by simp⟩, Finset.Subset.refl _, ⟨[], by simp⟩⟩
  | cons op ops ih =>
    have h1 := stepOp_growth s op
    have h2 := ih (stepOp s op)
    rw [List.foldl_cons]
    refine ⟨fun pid => ?_, h1.2.1.trans h2.2.1, ?_⟩
    · obtain ⟨t1, ht1⟩ := h1.1 pid
      obtain ⟨t2, ht2⟩ := h2.1 pid
      exact ⟨t1 ++ t2, by rw [← List.append_assoc, ht1, ht2]⟩
    · obtain ⟨t1, ht1⟩ := h1.2.2
      obtain ⟨t2, ht2⟩ := h2.2.2
      exact ⟨t1 ++ t2, by rw [← List.append_assoc, ht1, ht2]⟩

theorem stepOp_nodup (s : NodeState) (op : Op)
    (h : s.committed.Nodup) : (stepOp s op).committed.Nodup := by
  cases op with
  | rv v => simpa [stepOp, record_vote_committed] using h
  | tfq p q => simpa [stepOp, try_form_qc_committed] using h
  | aqc qc => exact apply_qc_commit_nodup s qc h

theorem foldOps_nodup (ops : List Op) (s : NodeState)
    (h : s.committed.Nodup) :
    (List.foldl stepOp s ops).committed.Nodup := by
  induction ops generalizing s with
  | nil => exact h
  | cons op ops ih => exact ih (stepOp s op) (stepOp_nodup s op h)

theorem hqcAdvance_refl (o : Option QC) : hqcAdvance o o := by
  cases o with
  | none => trivial
  | some qc0 => exact Or.inl rfl

theorem hqcAdvance_trans {a b c : Option QC} (h1 : hqcAdvance a b)
    (h2 : hqcAdvance b c) : hqcAdvance a c := by
  cases a with
  | none => trivial
  | some qc0 =>
    rcases h1 with h1 | ⟨qc1, hb, hv1⟩
    · rw [h1] at h2
      exact h2
    · rw [hb] at h2
      rcases h2 with h2 | ⟨qc2, hc, hv2⟩
      · exact Or.inr ⟨qc1, h2, hv1⟩
      · exact Or.inr ⟨qc2, hc, hv1.trans hv2⟩

theorem try_form_qc_hqc (s : NodeState) (p : Proposal) (q : Nat) :
    hqcAdvance s.highest_qc (s.try_form_qc p q).2.highest_qc := by
  unfold NodeState.try_form_qc
  by_cases h : q ≤ (lookupVotes s.received_votes p.id).length
  · simp only [h, if_true]
    unfold updateHQC
    cases hq : s.highest_qc with
    | none => trivial
    | some old =>
      by_cases hv : old.1.view < p.view
      · simp only [hv, if_true, hq]
        exact Or.inr ⟨_, rfl, hv⟩
      · simp only [hv, if_false, hq]
        exact Or.inl rfl
  · simp only [h, if_false]
    exact hqcAdvance_refl _

theorem stepOp_hqc (s : NodeState) (op : Op) :
    hqcAdvance s.highest_qc (stepOp s op).highest_qc := by
  cases op with
  | rv v =>
    rw [stepOp, record_vote_highest_qc]
    exact hqcAdvance_refl _
  | tfq p q => exact try_form_qc_hqc s p q
  | aqc qc =>
    rw [stepOp, apply_qc_commit_highest_qc]
    exact hqcAdvance_refl _

theorem foldOps_hqc (ops : List Op) (s : NodeState) :
    hqcAdvance s.highest_qc (List.foldl stepOp s ops).highest_qc := by
  induction ops generalizing s with
  | nil => exact hqcAdvance_refl _
  | cons op ops ih =>
    exact hqcAdvance_trans (stepOp_hqc s op) (ih (stepOp s op))

theorem try_form_qc_hqc_of_le (s : NodeState) (p : Proposal) (q : Nat)
    (qc0 : QC) (hs : s.highest_qc = some qc0) (hv : p.view ≤ qc0.1.view) :
    (s.try_form_qc p q).2.highest_qc = some qc0 := by
  unfold NodeState.try_form_qc
  by_cases h : q ≤ (lookupVotes s.received_votes p.id).length
  · simp only [h, if_true]
    unfold updateHQC
    rw [hs]
    simp only [Nat.not_lt_of_le hv, if_false]
    exact hs
  · simp only [h, if_false]
    exact hs

/-! ## Claim theorems: commit idempotence, highest-QC monotonicity, frames -/

/-- C6: Commit idempotence.  Applying `apply_qc_commit` with the same QC a
second time leaves the node exactly as after the first application, and after
any sequence of operations starting from a fresh node the committed list has
no duplicate block identifiers. -/
theorem commit_idempotent_and_nodup (s : NodeState) (qc : QC)
    (nid : String) (ops : List Op) :
    (s.apply_qc_commit qc).apply_qc_commit qc = s.apply_qc_commit qc ∧
    (List.foldl stepOp (initNode nid) ops).committed.Nodup := by
  constructor
  · by_cases h : qc.1.block_id ∈ s.committed
    · simp [NodeState.apply_qc_commit, h]
    · have h1 : s.apply_qc_commit qc =
          { s with committed := s.committed ++ [qc.1.block_id] } := by
        simp [NodeState.apply_qc_commit, h]
      rw [h1]
      simp [NodeState.apply_qc_commit]
  · exact foldOps_nodup ops (initNode nid) (by simp [initNode])

/-- C7: `highest_qc` strict-view monotonicity.  Across every sequence of
operations, a set `highest_qc` is only ever replaced by a QC of strictly
greater view, and a `try_form_qc` call whose proposal's view is at most the
stored QC's view leaves `highest_qc` unchanged. -/
theorem highest_qc_monotone (s : NodeState) (ops : List Op) (p : Proposal)
    (q : Nat) (qc0 : QC) :
    hqcAdvance s.highest_qc (List.foldl stepOp s ops).highest_qc ∧
    (s.highest_qc = some qc0 → p.view ≤ qc0.1.view →
      (s.try_form_qc p q).2.highest_qc = some qc0) :=
  ⟨foldOps_hqc ops s, fun hs hv => try_form_qc_hqc_of_le s p q qc0 hs hv⟩

/-- Witness for `highest_qc_monotone` at a concrete state, operation list,
and proposal of view 1 ≤ 2. -/
theorem highest_qc_monotone_witness :
    hqcAdvance hqcWitnessState.highest_qc
      (List.foldl stepOp hqcWitnessState []).highest_qc ∧
    (hqcWitnessState.try_form_qc (Proposal.mk "Y" "GENESIS" 1 "L")
        3).2.highest_qc =
      some (Proposal.mk "X" "GENESIS" 2 "L", ["A"]) :=
  ⟨(highest_qc_monotone hqcWitnessState [] (Proposal.mk "Y" "GENESIS" 1 "L")
      3 (Proposal.mk "X" "GENESIS" 2 "L", ["A"])).1,
   (highest_qc_monotone hqcWitnessState [] (Proposal.mk "Y" "GENESIS" 1 "L")
      3 (Proposal.mk "X" "GENESIS" 2 "L", ["A"])).2 rfl (by decide)⟩

/-- C10: Frame and growth discipline.  `record_vote` changes only the vote
map and the evidence set and only by adding; `try_form_qc` changes only
`highest_qc`; `apply_qc_commit` changes only the committed list and only by
appending; and across every operation sequence the per-proposal vote lists,
the evidence set, and the committed list never lose or reorder entries
(the old list is always a prefix of the new one, the old evidence set a
subset of the new one). -/
theorem frame_discipline (s : NodeState) (v : Vote) (p : Proposal) (q : Nat)
    (qc : QC) (ops : List Op) :
    ((s.record_vote v).committed = s.committed ∧
     (s.record_vote v).highest_qc = s.highest_qc ∧
     (s.record_vote v).id = s.id ∧
     s.evidence ⊆ (s.record_vote v).evidence ∧
     ∀ pid, ∃ t, lookupVotes s.received_votes pid ++ t =
       lookupVotes (s.record_vote v).received_votes pid) ∧
    ((s.try_form_qc p q).2.received_votes = s.received_votes ∧
     (s.try_form_qc p q).2.evidence = s.evidence ∧
     (s.try_form_qc p q).2.committed = s.committed ∧
     (s.try_form_qc p q).2.id = s.id) ∧
    ((s.apply_qc_commit qc).received_votes = s.received_votes ∧
     (s.apply_qc_commit qc).evidence = s.evidence ∧
     (s.apply_qc_commit qc).highest_qc = s.highest_qc ∧
     (s.apply_qc_commit qc).id = s.id ∧
     ∃ t, s.committed ++ t = (s.apply_qc_commit qc).committed) ∧
    ((∀ pid, ∃ t, lookupVotes s.received_votes pid ++ t =
        lookupVotes (List.foldl stepOp s ops).received_votes pid) ∧
     s.evidence ⊆ (List.foldl stepOp s ops).evidence ∧
     ∃ t, s.committed ++ t = (List.foldl stepOp s ops).committed) := by
  refine ⟨⟨record_vote_committed s v, record_vote_highest_qc s v,
      record_vote_id s v, evidence_subset_record_vote s v, fun pid => ?_⟩,
    ⟨try_form_qc_received s p q, try_form_qc_evidence s p q,
      try_form_qc_committed s p q, try_form_qc_id s p q⟩,
    ⟨apply_qc_commit_received s qc, apply_qc_commit_evidence s qc,
      apply_qc_commit_highest_qc s qc, apply_qc_commit_id s qc,
      apply_qc_commit_committed_ext s qc⟩,
    foldOps_growth ops s⟩
  exact ⟨if v.proposal.id = pid then [v] else [],
    (lookup_record_vote s v pid).symm⟩

/-! ## Claim theorem: quorum safety under an equivocation split -/

theorem length_votesFor (ts : List String) (p : Proposal) :
    (votesFor ts p).length = ts.length := by
  unfold votesFor
  exact List.length_map ts _

theorem filter_votesFor_self (ts : List String) (p : Proposal) :
    (votesFor ts p).filter (fun u => u.proposal.id == p.id) =
      votesFor ts p := by
  apply List.filter_eq_self.mpr
  intro u hu
  unfold votesFor at hu
  obtain ⟨t, ht, rfl⟩ := List.mem_map.mp hu
  simp

theorem filter_votesFor_ne (ts : List String) (p : Proposal) (q : String)
    (h : p.id ≠ q) :
    (votesFor ts p).filter (fun u => u.proposal.id == q) = [] := by
  rw [List.filter_eq_nil_iff]
  intro u hu
  obtain ⟨t, ht, rfl⟩ := List.mem_map.mp hu
  simp [h]

theorem lookup_splitScenario_A (targetsA targetsB : List String)
    (pA pB : Proposal) (nid : String) (hview : pA.view = pB.view)
    (hblock : pA.block_id ≠ pB.block_id) :
    lookupVotes
        (splitScenarioState targetsA targetsB pA pB nid).received_votes
        pA.id = votesFor targetsA pA := by
  unfold splitScenarioState
  rw [lookup_foldl_record, List.filter_append, filter_votesFor_self,
    filter_votesFor_ne _ _ _ (id_ne_of_block_ne hview.symm hblock.symm)]
  simp [initNode, lookupVotes]

theorem lookup_splitScenario_B (targetsA targetsB : List String)
    (pA pB : Proposal) (nid : String) (hview : pA.view = pB.view)
    (hblock : pA.block_id ≠ pB.block_id) :
    lookupVotes
        (splitScenarioState targetsA targetsB pA pB nid).received_votes
        pB.id = votesFor targetsB pB := by
  unfold splitScenarioState
  rw [lookup_foldl_record, List.filter_append, filter_votesFor_self,
    filter_votesFor_ne _ _ _ (id_ne_of_block_ne hview hblock)]
  simp [initNode, lookupVotes]

/-- C1: Quorum safety of QC formation.  When an equivocating leader splits
the validator set into two disjoint target groups, each of size strictly
below the quorum `Q = 2f+1`, and every targeted validator's single vote is
delivered to a node, `try_form_qc` at that node returns no QC for either of
the two conflicting proposals (and leaves the state unchanged).  Since every
node receives the same votes, this holds at every node. -/
theorem quorum_safety_split (nodeIds targetsA targetsB : List String)
    (f : Nat) (pA pB : Proposal) (nid : String)
    (_hsplit : nodeIds = targetsA ++ targetsB)
    (_hdisj : ∀ x, x ∈ targetsA → x ∉ targetsB)
    (hA : targetsA.length < 2 * f + 1)
    (hB : targetsB.length < 2 * f + 1)
    (hview : pA.view = pB.view)
    (hblock : pA.block_id ≠ pB.block_id) :
    (splitScenarioState targetsA targetsB pA pB nid).try_form_qc pA
        (2 * f + 1) =
      (none, splitScenarioState targetsA targetsB pA pB nid) ∧
    (splitScenarioState targetsA targetsB pA pB nid).try_form_qc pB
        (2 * f + 1) =
      (none, splitScenarioState targetsA targetsB pA pB nid) := by
  constructor
  · unfold NodeState.try_form_qc
    rw [lookup_splitScenario_A targetsA targetsB pA pB nid hview hblock]
    simp [length_votesFor, Nat.not_le_of_lt hA]
  · unfold NodeState.try_form_qc
    rw [lookup_splitScenario_B targetsA targetsB pA pB nid hview hblock]
    simp [length_votesFor, Nat.not_le_of_lt hB]

/-- Witness for `quorum_safety_split` at the driver's default configuration:
`N = 7`, `f = 2`, `Q = 5`, groups of sizes 3 and 4, proposals `X@v1` and
`Y@v1` by leader `A`. -/
theorem quorum_safety_split_witness :
    (splitScenarioState ["A", "B", "C"] ["D", "E", "F", "G"]
        (Proposal.mk "X" "GENESIS" 1 "A") (Proposal.mk "Y" "GENESIS" 1 "A")
        "A").try_form_qc (Proposal.mk "X" "GENESIS" 1 "A") (2 * 2 + 1) =
      (none, splitScenarioState ["A", "B", "C"] ["D", "E", "F", "G"]
        (Proposal.mk "X" "GENESIS" 1 "A") (Proposal.mk "Y" "GENESIS" 1 "A")
        "A") ∧
    (splitScenarioState ["A", "B", "C"] ["D", "E", "F", "G"]
        (Proposal.mk "X" "GENESIS" 1 "A") (Proposal.mk "Y" "GENESIS" 1 "A")
        "A").try_form_qc (Proposal.mk "Y" "GENESIS" 1 "A") (2 * 2 + 1) =
      (none, splitScenarioState ["A", "B", "C"] ["D", "E", "F", "G"]
        (Proposal.mk "X" "GENESIS" 1 "A") (Proposal.mk "Y" "GENESIS" 1 "A")
        "A") :=
  quorum_safety_split (["A", "B", "C"] ++ ["D", "E", "F", "G"])
    ["A", "B", "C"] ["D", "E", "F", "G"] 2
    (Proposal.mk "X" "GENESIS" 1 "A") (Proposal.mk "Y" "GENESIS" 1 "A") "A"
    rfl (by decide) (by decide) (by decide) (by decide) (by decide)

/-! ## Evidence machinery: what `record_vote`'s scan adds and why -/

theorem conflict_iff (ov v : Vote) :
    conflict ov v = true ↔
      ov.voter = v.voter ∧ ov.proposal.view = v.proposal.view ∧
      ov.proposal.proposer = v.proposal.proposer ∧
      ov.proposal.block_id ≠ v.proposal.block_id := by
  unfold conflict
  simp [Bool.and_assoc]

theorem mem_conflictEntries {rv : List (String × List Vote)} {pid : String}
    {v : Vote} {e : Evid} :
    e ∈ conflictEntries rv pid v ↔
      ∃ kvs, kvs ∈ rv ∧ kvs.1 ≠ pid ∧ ∃ ov, ov ∈ kvs.2 ∧
        conflict ov v = true ∧
        e = (v.voter, ov.proposal.id, v.proposal.id) := by
  unfold conflictEntries
  rw [List.mem_flatMap]
  constructor
  · rintro ⟨kvs, hkvs, he⟩
    by_cases h : kvs.1 = pid
    · rw [if_pos h] at he
      exact absurd he (List.not_mem_nil _)
    · rw [if_neg h] at he
      obtain ⟨ov, hov, hite⟩ := List.mem_filterMap.mp he
      by_cases hc : conflict ov v = true
      · rw [if_pos hc] at hite
        exact ⟨kvs, hkvs, h, ov, hov, hc, (Option.some_inj.mp hite).symm⟩
      · rw [if_neg hc] at hite
        exact absurd hite (by simp)
  · rintro ⟨kvs, hkvs, hne, ov, hov, hc, rfl⟩
    refine ⟨kvs, hkvs, ?_⟩
    rw [if_neg hne]
    exact List.mem_filterMap.mpr ⟨ov, hov, by rw [if_pos hc]⟩

theorem mem_insertVote {rv : List (String × List Vote)} {k : String}
    {v : Vote} {kvs : String × List Vote} (h : kvs ∈ insertVote rv k v) :
    kvs ∈ rv ∨ kvs.1 = k := by
  induction rv with
  | nil =>
    simp only [insertVote, List.mem_singleton] at h
    right
    rw [h]
  | cons kvs0 rest ih =>
    obtain ⟨k', vs⟩ := kvs0
    by_cases hk : k' = k
    · simp only [insertVote, hk, if_true, List.mem_cons] at h
      rcases h with h | h
      · right
        rw [h]
      · exact Or.inl (List.mem_cons_of_mem _ h)
    · simp only [insertVote, hk, if_false, List.mem_cons] at h
      rcases h with h | h
      · exact Or.inl (by rw [h]; exact List.mem_cons_self _ _)
      · rcases ih h with h' | h'
        · exact Or.inl (List.mem_cons_of_mem _ h')
        · exact Or.inr h'

theorem mem_insertVote_of_ne {rv : List (String × List Vote)} {pid : String}
    {v : Vote} {kvs : String × List Vote} (h : kvs ∈ rv)
    (hne : kvs.1 ≠ pid) : kvs ∈ insertVote rv pid v := by
  induction rv with
  | nil => exact absurd h (List.not_mem_nil _)
  | cons kvs0 rest ih =>
    obtain ⟨k', vs⟩ := kvs0
    rcases List.mem_cons.mp h with h' | h'
    · by_cases hk : k' = pid
      · exact absurd (by rw [h']; exact hk) hne
      · simp only [insertVote, hk, if_false]
        rw [h']
        exact List.mem_cons_self _ _
    · by_cases hk : k' = pid
      · simp only [insertVote, hk, if_true]
        exact List.mem_cons_of_mem _ h'
      · simp only [insertVote, hk, if_false]
        exact List.mem_cons_of_mem _ (ih h')

theorem mem_insertVote_votes {rv : List (String × List Vote)} {k : String}
    {v : Vote} {kvs : String × List Vote} (h : kvs ∈ insertVote rv k v) :
    ∀ u ∈ kvs.2, u = v ∨ ∃ kvs0, kvs0 ∈ rv ∧ u ∈ kvs0.2 := by
  induction rv with
  | nil =>
    simp only [insertVote, List.mem_singleton] at h
    intro u hu
    rw [h] at hu
    exact Or.inl (List.mem_singleton.mp hu)
  | cons kvs0 rest ih =>
    obtain ⟨k', vs⟩ := kvs0
    by_cases hk : k' = k
    · simp only [insertVote, hk, if_true, List.mem_cons] at h
      intro u hu
      rcases h with h | h
      · rw [h] at hu
        rcases List.mem_append.mp hu with h' | h'
        · exact Or.inr ⟨(k', vs), List.mem_cons_self _ _, h'⟩
        · exact Or.inl (List.mem_singleton.mp h')
      · exact Or.inr ⟨kvs, List.mem_cons_of_mem _ h, hu⟩
  
    · simp only [insertVote, hk, if_false, List.mem_cons] at h
      intro u hu
      rcases h with h | h
      · rw [h] at hu
        exact Or.inr ⟨(k', vs), List.mem_cons_self _ _, hu⟩
      · rcases ih h u hu with h' | ⟨kvs1, h1, h2⟩
        · exact Or.inl h'
        · exact Or.inr ⟨kvs1, List.mem_cons_of_mem _ h1, h2⟩

theorem lookup_mem_entry {rv : List (String × List Vote)} {k : String}
    (h : lookupVotes rv k ≠ []) : (k, lookupVotes rv k) ∈ rv := by
  induction rv with
  | nil => exact absurd rfl h
  | cons kvs rest ih =>
    obtain ⟨k', vs⟩ := kvs
    by_cases hk : k' = k
    · subst hk
      simp only [lookupVotes, if_true]
      exact List.mem_cons_self _ _
    · simp only [lookupVotes, hk, if_false] at h ⊢
      exact List.mem_cons_of_mem _ (ih h)

theorem evidence_subset_foldl (l : List Vote) (s : NodeState) :
    s.evidence ⊆ (List.foldl NodeState.record_vote s l).evidence := by
  induction l generalizing s with
  | nil => exact Finset.Subset.refl _
  | cons v l ih =>
    rw [List.foldl_cons]
    exact (evidence_subset_record_vote s v).trans (ih (s.record_vote v))

theorem stored_sound_aux (l : List Vote) (s : NodeState) (H : List Vote)
    (hs : ∀ kvs ∈ s.received_votes, ∀ u ∈ kvs.2, u ∈ H) :
    ∀ kvs ∈ (List.foldl NodeState.record_vote s l).received_votes,
      ∀ u ∈ kvs.2, u ∈ H ++ l := by
  induction l generalizing s H with
  | nil => simpa using hs
  | cons v l ih =>
    rw [List.foldl_cons]
    have hstep : ∀ kvs ∈ (s.record_vote v).received_votes,
        ∀ u ∈ kvs.2, u ∈ H ++ [v] := by
      intro kvs hkvs u hu
      rw [record_vote_received] at hkvs
      rcases mem_insertVote_votes hkvs u hu with h' | ⟨kvs0, h1, h2⟩
      · rw [h']
        exact List.mem_append_right _ (List.mem_singleton.mpr rfl)
      · exact List.mem_append_left _ (hs kvs0 h1 u h2)
    intro kvs hkvs u hu
    have hmem := ih (s.record_vote v) (H ++ [v]) hstep kvs hkvs u hu
    simpa [List.append_assoc] using hmem

theorem stored_sound (l : List Vote) (nid : String) :
    ∀ kvs ∈ (nodeAfter l nid).received_votes, ∀ u ∈ kvs.2, u ∈ l := by
  have h := stored_sound_aux l (initNode nid) []
    (by intro kvs hkvs; simp [initNode] at hkvs)
  simpa using h

theorem record_vote_detects (s : NodeState) (u0 u : Vote)
    (hmem : u0 ∈ lookupVotes s.received_votes u0.proposal.id)
    (hc : conflict u0 u = true)
    (hpid : u0.proposal.id ≠ u.proposal.id) :
    (u.voter, u0.proposal.id, u.proposal.id) ∈
      (s.record_vote u).evidence := by
  rw [record_vote_evidence]
  apply Finset.mem_union_right
  rw [List.mem_toFinset]
  apply mem_conflictEntries.mpr
  have hne : lookupVotes s.received_votes u0.proposal.id ≠ [] := by
    intro h
    rw [h] at hmem
    exact List.not_mem_nil _ hmem
  refine ⟨(u0.proposal.id, lookupVotes s.received_votes u0.proposal.id),
    mem_insertVote_of_ne (lookup_mem_entry hne) hpid, hpid, u0, hmem, hc,
    rfl⟩

/-! ## Claim theorems: equivocation detection -/

theorem detect_after_scenario (pre l3 : List Vote) (u0 u : Vote)
    (nid : String) (hmem : u0 ∈ pre) (hc : conflict u0 u = true)
    (hpid : u0.proposal.id ≠ u.proposal.id) :
    (u.voter, u0.proposal.id, u.proposal.id) ∈
      (nodeAfter (pre ++ u :: l3) nid).evidence := by
  have h1 : u0 ∈ lookupVotes (nodeAfter pre nid).received_votes
      u0.proposal.id := by
    unfold nodeAfter
    rw [lookup_foldl_record]
    apply List.mem_append_right
    exact List.mem_filter.mpr ⟨hmem, by simp⟩
  have h2 := record_vote_detects (nodeAfter pre nid) u0 u h1 hc hpid
  unfold nodeAfter
  rw [List.foldl_append, List.foldl_cons]
  exact evidence_subset_foldl l3 _ h2

/-- C2: Equivocation detection completeness, order-independent.  For two
votes by the same voter whose proposals share view and proposer but differ
in block identifier, after a node ingests both — in either order, with any
other votes interleaved before, between, or after — its evidence set
contains the entry naming that voter and both proposal identities (oriented
earlier-seen first). -/
theorem equivocation_detection_complete (l1 l2 l3 : List Vote)
    (v1 v2 : Vote) (nid : String)
    (hvoter : v1.voter = v2.voter)
    (hview : v1.proposal.view = v2.proposal.view)
    (hprop : v1.proposal.proposer = v2.proposal.proposer)
    (hblock : v1.proposal.block_id ≠ v2.proposal.block_id) :
    (v1.voter, v1.proposal.id, v2.proposal.id) ∈
      (nodeAfter ((l1 ++ v1 :: l2) ++ v2 :: l3) nid).evidence ∧
    (v1.voter, v2.proposal.id, v1.proposal.id) ∈
      (nodeAfter ((l1 ++ v2 :: l2) ++ v1 :: l3) nid).evidence := by
  constructor
  · have h := detect_after_scenario (l1 ++ v1 :: l2) l3 v1 v2 nid
      (by simp) (conflict_iff v1 v2 |>.mpr ⟨hvoter, hview, hprop, hblock⟩)
      (id_ne_of_block_ne hview hblock)
    rw [hvoter]
    exact h
  · exact detect_after_scenario (l1 ++ v2 :: l2) l3 v2 v1 nid
      (by simp)
      (conflict_iff v2 v1 |>.mpr
        ⟨hvoter.symm, hview.symm, hprop.symm, hblock.symm⟩)
      (id_ne_of_block_ne hview.symm hblock.symm)

/-- Witness for `equivocation_detection_complete`: voter `W` endorses the
conflicting proposals `X@v1` and `Y@v1` of leader `L` with no other votes
around. -/
theorem equivocation_detection_complete_witness :
    ("W", "X@v1", "Y@v1") ∈
      (nodeAfter (([] ++ Vote.mk "W" (Proposal.mk "X" "GENESIS" 1 "L") "s1"
          :: []) ++ Vote.mk "W" (Proposal.mk "Y" "GENESIS" 1 "L") "s2"
          :: []) "A").evidence ∧
    ("W", "Y@v1", "X@v1") ∈
      (nodeAfter (([] ++ Vote.mk "W" (Proposal.mk "Y" "GENESIS" 1 "L") "s2"
          :: []) ++ Vote.mk "W" (Proposal.mk "X" "GENESIS" 1 "L") "s1"
          :: []) "A").evidence :=
  equivocation_detection_complete [] [] []
    (Vote.mk "W" (Proposal.mk "X" "GENESIS" 1 "L") "s1")
    (Vote.mk "W" (Proposal.mk "Y" "GENESIS" 1 "L") "s2") "A"
    rfl rfl rfl (by decide)

/-- Every evidence entry a node ever holds was produced by the conflict
scan: the list of ingested votes splits around a vote `u` by the accused
voter for the second-named proposal, with an earlier vote `u0` by the same
voter for the first-named proposal in the same view, same proposer, and a
different block. -/
theorem evidence_provenance (l : List Vote) (nid w a b : String)
    (h : (w, a, b) ∈ (nodeAfter l nid).evidence) :
    ∃ l1 u l2, l = l1 ++ u :: l2 ∧ u.voter = w ∧ u.proposal.id = b ∧
      ∃ u0, u0 ∈ l1 ∧ u0.voter = w ∧ u0.proposal.id = a ∧
        u0.proposal.view = u.proposal.view ∧
        u0.proposal.proposer = u.proposal.proposer ∧
        u0.proposal.block_id ≠ u.proposal.block_id := by
  induction l using List.reverseRecOn with
  | nil => simp [nodeAfter, initNode] at h
  | append_singleton l v ih =>
    unfold nodeAfter at h
    rw [List.foldl_append, List.foldl_cons, List.foldl_nil] at h
    rw [record_vote_evidence] at h
    rcases Finset.mem_union.mp h with h | h
    · obtain ⟨l1, u, l2, hl, huv, hub, u0, h01, h0v, h0a, hvw, hpp, hbb⟩ :=
        ih h
      exact ⟨l1, u, l2 ++ [v], by rw [hl]; simp, huv, hub,
        u0, h01, h0v, h0a, hvw, hpp, hbb⟩
    · rw [List.mem_toFinset] at h
      obtain ⟨kvs, hkvs, hne, ov, hov, hc, he⟩ := mem_conflictEntries.mp h
      have hkvs' : kvs ∈ (List.foldl NodeState.record_vote (initNode nid)
          l).received_votes := by
        rcases mem_insertVote hkvs with h' | h'
        · exact h'
        · exact absurd h' hne
      have hovl : ov ∈ l := stored_sound l nid kvs hkvs' ov hov
      obtain ⟨hw, ha, hb⟩ : w = v.voter ∧ a = ov.proposal.id ∧
          b = v.proposal.id := by
        have := Prod.mk.injEq .. ▸ he
        exact ⟨congrArg Prod.fst he, congrArg (fun e => e.2.1) he,
          congrArg (fun e => e.2.2) he⟩
      obtain ⟨hcv, hcw, hcp, hcb⟩ := (conflict_iff ov v).mp hc
      exact ⟨l, v, [], rfl, hw.symm, hb.symm, ov, hovl,
        (hcv.trans hw.symm), ha.symm, hcw, hcp, hcb⟩

/-- C3: No false equivocation.  Every evidence entry accusing a voter comes
from two of that voter's ingested votes with equal view, equal proposer,
and different block identifiers; consequently a voter all of whose
same-view, same-proposer vote pairs agree on the block (in particular one
that voted for different blocks only in different views, or for the same
block under different proposers) is never accused. -/
theorem no_false_equivocation (l : List Vote) (nid w : String) :
    (∀ a b, (w, a, b) ∈ (nodeAfter l nid).evidence →
      ∃ u0 u, u0 ∈ l ∧ u ∈ l ∧ u0.voter = w ∧ u.voter = w ∧
        u0.proposal.id = a ∧ u.proposal.id = b ∧
        u0.proposal.view = u.proposal.view ∧
        u0.proposal.proposer = u.proposal.proposer ∧
        u0.proposal.block_id ≠ u.proposal.block_id) ∧
    ((∀ u0 u, u0 ∈ l → u ∈ l → u0.voter = w → u.voter = w →
        u0.proposal.view = u.proposal.view →
        u0.proposal.proposer = u.proposal.proposer →
        u0.proposal.block_id = u.proposal.block_id) →
      ∀ a b, (w, a, b) ∉ (nodeAfter l nid).evidence) := by
  constructor
  · intro a b h
    obtain ⟨l1, u, l2, hl, huv, hub, u0, h01, h0v, h0a, hvw, hpp, hbb⟩ :=
      evidence_provenance l nid w a b h
    refine ⟨u0, u, ?_, ?_, h0v, huv, h0a, hub, hvw, hpp, hbb⟩
    · rw [hl]
      exact List.mem_append_left _ h01
    · rw [hl]
      exact List.mem_append_right _ (List.mem_cons_self _ _)
  · intro hyp a b h
    obtain ⟨l1, u, l2, hl, huv, hub, u0, h01, h0v, h0a, hvw, hpp, hbb⟩ :=
      evidence_provenance l nid w a b h
    have hm0 : u0 ∈ l := by
      rw [hl]
      exact List.mem_append_left _ h01
    have hm : u ∈ l := by
      rw [hl]
      exact List.mem_append_right _ (List.mem_cons_self _ _)
    exact hbb (hyp u0 u hm0 hm h0v huv hvw hpp)

/-- Witness for `no_false_equivocation`: voter `W` votes for different
blocks in different views (view 1 and view 2); no evidence accuses `W`. -/
theorem no_false_equivocation_witness :
    (∀ a b, (("W", a, b) : Evid) ∈
        (nodeAfter [Vote.mk "W" (Proposal.mk "X" "GENESIS" 1 "L") "s1",
          Vote.mk "W" (Proposal.mk "Y" "GENESIS" 2 "L") "s2"] "A").evidence →
      ∃ u0 u, u0 ∈ [Vote.mk "W" (Proposal.mk "X" "GENESIS" 1 "L") "s1",
          Vote.mk "W" (Proposal.mk "Y" "GENESIS" 2 "L") "s2"] ∧
        u ∈ [Vote.mk "W" (Proposal.mk "X" "GENESIS" 1 "L") "s1",
          Vote.mk "W" (Proposal.mk "Y" "GENESIS" 2 "L") "s2"] ∧
        u0.voter = "W" ∧ u.voter = "W" ∧
        u0.proposal.id = a ∧ u.proposal.id = b ∧
        u0.proposal.view = u.proposal.view ∧
        u0.proposal.proposer = u.proposal.proposer ∧
        u0.proposal.block_id ≠ u.proposal.block_id) ∧
    ∀ a b, (("W", a, b) : Evid) ∉
      (nodeAfter [Vote.mk "W" (Proposal.mk "X" "GENESIS" 1 "L") "s1",
        Vote.mk "W" (Proposal.mk "Y" "GENESIS" 2 "L") "s2"] "A").evidence :=
  ⟨(no_false_equivocation [Vote.mk "W" (Proposal.mk "X" "GENESIS" 1 "L")
      "s1", Vote.mk "W" (Proposal.mk "Y" "GENESIS" 2 "L") "s2"] "A" "W").1,
   (no_false_equivocation [Vote.mk "W" (Proposal.mk "X" "GENESIS" 1 "L")
      "s1", Vote.mk "W" (Proposal.mk "Y" "GENESIS" 2 "L") "s2"] "A" "W").2
     (by
       intro u0 u h0 h1 _ _ hview _
       simp only [List.mem_cons, List.not_mem_nil, or_false] at h0 h1
       rcases h0 with rfl | rfl <;> rcases h1 with rfl | rfl <;> simp_all)⟩

/-! ## Claim theorems: evidence deduplication -/

theorem sublist_pair_antisymm {α : Type} {l : List α} (hnd : l.Nodup)
    {x y : α} (h1 : List.Sublist [x, y] l)
    (h2 : List.Sublist [y, x] l) : x = y := by
  induction l with
  | nil => exact absurd (List.sublist_nil.mp h1) (by simp)
  | cons c rest ih =>
    obtain ⟨hc, hrest⟩ := List.nodup_cons.mp hnd
    cases h1 with
    | cons _ h1' =>
      cases h2 with
      | cons _ h2' => exact ih hrest h1' h2'
      | cons₂ _ h2' => exact absurd (h1'.subset (by simp)) hc
    | cons₂ _ h1' =>
      cases h2 with
      | cons _ h2' => exact absurd (h2'.subset (by simp)) hc
      | cons₂ _ h2' => rfl

/-- Counterexample to C4 as stated: when the same voter's vote for the first
proposal is ingested again after the conflict was already recorded, the scan
re-discovers the conflict in the opposite orientation and the evidence set
holds two distinct entries for the same (voter, proposal-pair), with the two
proposal identities swapped. -/
theorem evidence_swapped_pair_counterexample :
    (("W", "X@v1", "Y@v1") : Evid) ∈
      (nodeAfter [Vote.mk "W" (Proposal.mk "X" "GENESIS" 1 "L") "s1",
        Vote.mk "W" (Proposal.mk "Y" "GENESIS" 1 "L") "s2",
        Vote.mk "W" (Proposal.mk "X" "GENESIS" 1 "L") "s1"] "A").evidence ∧
    (("W", "Y@v1", "X@v1") : Evid) ∈
      (nodeAfter [Vote.mk "W" (Proposal.mk "X" "GENESIS" 1 "L") "s1",
        Vote.mk "W" (Proposal.mk "Y" "GENESIS" 1 "L") "s2",
        Vote.mk "W" (Proposal.mk "X" "GENESIS" 1 "L") "s1"] "A").evidence ∧
    (("W", "X@v1", "Y@v1") : Evid) ≠ ("W", "Y@v1", "X@v1") := by
  refine ⟨by decide, by decide, by decide⟩

/-- C4 (amended): Evidence deduplication.  Exact repeats of an entry are
deduplicated by set semantics, and as long as no vote by the same voter for
the same proposal identity is ingested twice, a node holds at most one
evidence entry per (voter, proposal-pair): the same conflict cannot appear
in both orientations.  (With duplicate vote deliveries the two swapped
orientations can both appear — see the counterexample.) -/
theorem evidence_pair_unique (l : List Vote) (nid w a b : String)
    (hnd : (l.map fun u => (u.voter, u.proposal.id)).Nodup)
    (hab : (w, a, b) ∈ (nodeAfter l nid).evidence) :
    (w, b, a) ∉ (nodeAfter l nid).evidence := by
  intro hba
  obtain ⟨l1, u, l2, hl, huv, hub, u0, h01, h0v, h0a, hvw, hpp, hbb⟩ :=
    evidence_provenance l nid w a b hab
  obtain ⟨m1, t, m2, hm, htv, hta, t0, ht01, ht0v, ht0b, hvw', hpp', hbb'⟩ :=
    evidence_provenance l nid w b a hba
  have hab_ne : a ≠ b := by
    rw [← h0a, ← hub]
    exact id_ne_of_block_ne hvw hbb
  have s1 : List.Sublist [((w, a) : String × String), (w, b)]
      (l.map fun u => (u.voter, u.proposal.id)) := by
    rw [hl, List.map_append, List.map_cons]
    have hx : List.Sublist [((w, a) : String × String)]
        (l1.map fun u => (u.voter, u.proposal.id)) :=
      List.singleton_sublist.mpr
        (List.mem_map.mpr ⟨u0, h01, by rw [h0v, h0a]⟩)
    have hy : List.Sublist [((w, b) : String × String)]
        ((u.voter, u.proposal.id) :: (l2.map fun u =>
          (u.voter, u.proposal.id))) := by
      apply List.singleton_sublist.mpr
      rw [huv, hub]
      exact List.mem_cons_self _ _
    show List.Sublist ([((w, a) : String × String)] ++ [(w, b)]) _
    exact List.Sublist.append hx hy
  have s2 : List.Sublist [((w, b) : String × String), (w, a)]
      (l.map fun u => (u.voter, u.proposal.id)) := by
    rw [hm, List.map_append, List.map_cons]
    have hx : List.Sublist [((w, b) : String × String)]
        (m1.map fun u => (u.voter, u.proposal.id)) :=
      List.singleton_sublist.mpr
        (List.mem_map.mpr ⟨t0, ht01, by rw [ht0v, ht0b]⟩)
    have hy : List.Sublist [((w, a) : String × String)]
        ((t.voter, t.proposal.id) :: (m2.map fun u =>
          (u.voter, u.proposal.id))) := by
      apply List.singleton_sublist.mpr
      rw [htv, hta]
      exact List.mem_cons_self _ _
    show List.Sublist ([((w, b) : String × String)] ++ [(w, a)]) _
    exact List.Sublist.append hx hy
  have := sublist_pair_antisymm hnd s1 s2
  exact hab_ne (congrArg Prod.snd this)

/-- Witness for `evidence_pair_unique`: with each of `W`'s conflicting votes
ingested exactly once, only the first-seen orientation is present. -/
theorem evidence_pair_unique_witness :
    (("W", "Y@v1", "X@v1") : Evid) ∉
      (nodeAfter [Vote.mk "W" (Proposal.mk "X" "GENESIS" 1 "L") "s1",
        Vote.mk "W" (Proposal.mk "Y" "GENESIS" 1 "L") "s2"] "A").evidence :=
  evidence_pair_unique
    [Vote.mk "W" (Proposal.mk "X" "GENESIS" 1 "L") "s1",
     Vote.mk "W" (Proposal.mk "Y" "GENESIS" 1 "L") "s2"] "A" "W"
    "X@v1" "Y@v1" (by decide) (by decide)

/-! ## Claim theorems: QC voter counts, end-to-end scenario, dispatch -/

/-- Counterexample to C5 as stated: with `f = 1` (`Q = 3`), a voter `W`
whose vote for the same proposal is ingested three times makes the node
form a QC whose voter tuple is `[W, W, W]` — only one distinct voter,
strictly below the quorum threshold. -/
theorem qc_duplicate_voters_counterexample :
    ((nodeAfter [Vote.mk "W" (Proposal.mk "X" "GENESIS" 1 "L") "s",
        Vote.mk "W" (Proposal.mk "X" "GENESIS" 1 "L") "s",
        Vote.mk "W" (Proposal.mk "X" "GENESIS" 1 "L") "s"] "A").try_form_qc
      (Proposal.mk "X" "GENESIS" 1 "L") (2 * 1 + 1)).1 =
      some (Proposal.mk "X" "GENESIS" 1 "L", ["W", "W", "W"]) ∧
    ((Proposal.mk "X" "GENESIS" 1 "L", ["W", "W", "W"]) :
      QC).2.toFinset.card < 2 * 1 + 1 := by
  refine ⟨by decide, by decide⟩

/-- C5 (amended): every QC returned by `try_form_qc` carries a voter tuple
of length exactly `QUORUM` (counted with multiplicity); the number of
*distinct* voters reaches `QUORUM` when the recorded votes for the proposal
have pairwise-distinct voters, but duplicate votes by one voter can inflate
the count (see the counterexample). -/
theorem qc_voter_count (s : NodeState) (p : Proposal) (q : Nat) (qc : QC)
    (h : (s.try_form_qc p q).1 = some qc) :
    qc.2.length = q ∧
    (((lookupVotes s.received_votes p.id).map Vote.voter).Nodup →
      q ≤ qc.2.toFinset.card) := by
  unfold NodeState.try_form_qc at h
  by_cases hq : q ≤ (lookupVotes s.received_votes p.id).length
  · simp only [hq, if_true] at h
    have hqc : qc = (p, List.insertionSort (fun a b => strLe a b = true)
        (((lookupVotes s.received_votes p.id).take q).map Vote.voter)) :=
      (Option.some_inj.mp h).symm
    have hlen : (((lookupVotes s.received_votes p.id).take q).map
        Vote.voter).length = q := by
      rw [List.length_map, List.length_take]
      exact Nat.min_eq_left hq
    constructor
    · rw [hqc]
      simp only [List.length_insertionSort]
      exact hlen
    · intro hnd
      have hnd2 : (((lookupVotes s.received_votes p.id).take q).map
          Vote.voter).Nodup := by
        rw [List.map_take]
        exact List.Nodup.sublist (List.take_sublist _ _) hnd
      have hperm := List.perm_insertionSort (fun a b => strLe a b = true)
        (((lookupVotes s.received_votes p.id).take q).map Vote.voter)
      have hnds : (List.insertionSort (fun a b => strLe a b = true)
          (((lookupVotes s.received_votes p.id).take q).map
            Vote.voter)).Nodup := hperm.symm.nodup hnd2
      rw [hqc]
      rw [List.toFinset_card_of_nodup hnds, List.length_insertionSort]
      rw [hlen]
  · simp only [hq, if_false] at h
    exact absurd h (by simp)

/-- Witness for `qc_voter_count`: three distinct voters, `Q = 3`; the QC's
voter tuple has length 3 and three distinct voters. -/
theorem qc_voter_count_witness :
    ((Proposal.mk "X" "GENESIS" 1 "L", ["A", "B", "C"]) : QC).2.length =
      3 ∧
    3 ≤ ((Proposal.mk "X" "GENESIS" 1 "L", ["A", "B", "C"]) :
      QC).2.toFinset.card :=
  have h := qc_voter_count
    (nodeAfter (votesFor ["A", "B", "C"] (Proposal.mk "X" "GENESIS" 1 "L"))
      "A")
    (Proposal.mk "X" "GENESIS" 1 "L") 3
    (Proposal.mk "X" "GENESIS" 1 "L", ["A", "B", "C"]) (by decide)
  ⟨h.1, h.2 (by decide)⟩

/-- C8: the end-to-end equivocation scenario at `N = 7`, `f = 2`, `Q = 5`
with faulty leader `A`: no QC forms for `X` or `Y`, no equivocation
evidence is recorded, a QC for `Z` forms at every one of the 7 nodes, and
every node's committed list is exactly `[Z]`. -/
theorem end_to_end_equivocation_scenario :
    (runEquivocation NODE_IDS7 "A" 5).qcs = [] ∧
    (runEquivocation NODE_IDS7 "A" 5).evidence = ∅ ∧
    (runEquivocation NODE_IDS7 "A" 5).qcs_z.length = 7 ∧
    (∀ qc ∈ (runEquivocation NODE_IDS7 "A" 5).qcs_z,
      qc.1 = Proposal.mk "Z" "GENESIS" 2 "B") ∧
    (runEquivocation NODE_IDS7 "A" 5).nodes.map NodeState.committed =
      List.replicate 7 ["Z"] := by
  refine ⟨by decide, by decide, by decide, by decide, by decide⟩

/-- C9: the `Withhold QC` and `Drop messages` branches are explicit no-ops:
the run reports a not-implemented outcome, and every node is exactly a
freshly reset state — empty committed list, empty evidence set, empty vote
map, no highest QC. -/
theorem unimplemented_attacks_noop (attack : AttackType)
    (nodeIds : List String) (leader : String) (Q : Nat)
    (h : attack = AttackType.withholdQC ∨
      attack = AttackType.dropMessages) :
    (∃ msg, (runSimulation attack nodeIds leader Q).1 =
      SimOutcome.notImplemented msg) ∧
    (runSimulation attack nodeIds leader Q).2 = nodeIds.map initNode ∧
    ∀ nd ∈ (runSimulation attack nodeIds leader Q).2,
      nd.committed = [] ∧ nd.evidence = ∅ ∧ nd.received_votes = [] ∧
        nd.highest_qc = none := by
  rcases h with rfl | rfl <;>
  · refine ⟨⟨_, rfl⟩, rfl, ?_⟩
    intro nd hnd
    simp only [runSimulation] at hnd
    obtain ⟨nid, _, rfl⟩ := List.mem_map.mp hnd
    exact ⟨rfl, rfl, rfl, rfl⟩

/-- Witness for `unimplemented_attacks_noop` at the `Withhold QC` branch
with the default seven validators. -/
theorem unimplemented_attacks_noop_witness :
    (∃ msg, (runSimulation AttackType.withholdQC NODE_IDS7 "A" 5).1 =
      SimOutcome.notImplemented msg) ∧
    (runSimulation AttackType.withholdQC NODE_IDS7 "A" 5).2 =
      NODE_IDS7.map initNode ∧
    ∀ nd ∈ (runSimulation AttackType.withholdQC NODE_IDS7 "A" 5).2,
      nd.committed = [] ∧ nd.evidence = ∅ ∧ nd.received_votes = [] ∧
        nd.highest_qc = none :=
  unimplemented_attacks_noop AttackType.withholdQC NODE_IDS7 "A" 5
    (Or.inl rfl)
